import Mathlib

/-!
Verification of the travel-itinerary pipeline (console front end
`travel_planner.py` and web front end `app.py`).

The two Python files share a four-stage pipeline: parse the
"place, N days" input, call the Serper search API, summarize the top
organic results, and render a fixed prompt template for the LLM.  The
development below embeds those functions shallowly: Python strings are
Lean `String`s (reasoned about through their `List Char` data), Python
`str.split`, `str.strip`, `int(...)` and `str.format` are modelled by
executable Lean functions with the same semantics on the inputs the
program can produce, the two HTTP services are oracles passed as
function arguments, and each front end run is a pure function from the
oracles and the form inputs to the list of emitted external events and
the final user-visible outcome.
-/

/-! ## Python string primitives -/

/-- ASCII whitespace recognized by Python `str.strip` / `str.split`:
space, tab, newline, carriage return, vertical tab, form feed. -/
def isPyWs (c : Char) : Bool :=
  c = ' ' || c = '\t' || c = '\n' || c = '\r' || c = '\x0b' || c = '\x0c'

/-- `splitP p l` splits `l` at every character satisfying `p`, keeping
empty pieces, as Python `str.split(sep)` does for a one-character
separator (`"".split(sep) == [""]`). -/
def splitP (p : Char → Bool) : List Char → List (List Char)
  | [] => [[]]
  | c :: rest =>
    if p c then [] :: splitP p rest
    else
      match splitP p rest with
      | [] => [[c]]
      | q :: qs => (c :: q) :: qs

/-- Inverse of `splitP` for a one-character separator: interleave the
separator back between the pieces. -/
def joinSep (sep : Char) : List (List Char) → List Char
  | [] => []
  | [x] => x
  | x :: xs => x ++ sep :: joinSep sep xs

/-- Drop trailing Python whitespace (the right half of `str.strip`). -/
def rdropWs (l : List Char) : List Char :=
  (l.reverse.dropWhile isPyWs).reverse

/-- Python `str.strip()` on character lists. -/
def pyStripL (l : List Char) : List Char :=
  rdropWs (l.dropWhile isPyWs)

/-- Python `str.strip()`. -/
def pyStrip (s : String) : String :=
  ⟨pyStripL s.data⟩

/-- Python `str.split()` with no argument: maximal runs of
non-whitespace characters, empty pieces dropped. -/
def pyWsSplitL (l : List Char) : List (List Char) :=
  (splitP isPyWs l).filter (fun t => !t.isEmpty)

/-- Value of a digit character. -/
def digitVal (c : Char) : Nat := c.toNat - 48

/-- The digit part of Python `int(...)`: a nonempty run of decimal
digits in which a single underscore may stand between two digits
(`"1_0"` is 10; `"_1"`, `"1_"`, `"1__0"` are rejected).  `acc` is the
value of the digits already read. -/
def pyDigitsCore (acc : Nat) : List Char → Option Nat
  | [] => some acc
  | c :: rest =>
    if c = '_' then
      match rest with
      | [] => none
      | d :: rest2 =>
        if d.isDigit then pyDigitsCore (acc * 10 + digitVal d) rest2 else none
    else if c.isDigit then pyDigitsCore (acc * 10 + digitVal c) rest else none

/-- Parse a nonempty digit run (with Python underscore grouping). -/
def pyParseDigits : List Char → Option Nat
  | c :: rest => if c.isDigit then pyDigitsCore (digitVal c) rest else none
  | [] => none

/-- Python `int(token)` for a whitespace-free token: an optional sign
followed by digits. -/
def pyParseIntL (l : List Char) : Option Int :=
  match l with
  | [] => none
  | c :: rest =>
    if c = '+' then (pyParseDigits rest).map Int.ofNat
    else if c = '-' then (pyParseDigits rest).map (fun m => -(Int.ofNat m))
    else (pyParseDigits (c :: rest)).map Int.ofNat

/-- Python `int(token)` on strings. -/
def pyParseInt (s : String) : Option Int := pyParseIntL s.data

/-! ## The input parser

`travel_planner.py` lines 75-77 (identically `app.py` lines 88-90):

    dest_parts = destination.split(',')
    place = dest_parts[0].strip()
    num_days = int(dest_parts[1].strip().split()[0])

`IndexError` (missing `dest_parts[1]` or empty token list) and
`ValueError` (unparsable token) are both caught by the caller, so the
parse is modelled as an `Option`. -/

/-- The combined place/days parse; `none` is the caught
`IndexError`/`ValueError` path (the InputFormatError condition). -/
def parseDest (s : String) : Option (String × Int) :=
  match splitP (fun c => c = ',') s.data with
  | p0 :: p1 :: _ =>
    match pyWsSplitL (pyStripL p1) with
    | t :: _ => (pyParseIntL t).map (fun n => (⟨pyStripL p0⟩, n))
    | [] => none
  | _ => none

/-! ## Spec-side predicates

These express the claims' own vocabulary — "the text after the first
comma", "begins with an integer token", "contains as a substring" —
independently of the parser implementation. -/

/-- The text after the first comma, `none` when no comma occurs. -/
def afterComma : List Char → Option (List Char)
  | [] => none
  | c :: rest => if c = ',' then some rest else afterComma rest

/-- Whether a text starts, after leading whitespace, with an integer
token: an optional sign immediately followed by at least one decimal
digit. -/
def hasLeadingIntTok (l : List Char) : Bool :=
  match l.dropWhile isPyWs with
  | [] => false
  | c :: cs =>
    if c.isDigit then true
    else if c = '+' || c = '-' then
      match cs with
      | d :: _ => d.isDigit
      | [] => false
    else false

/-- `occursIn t s`: `t` occurs in `s` as a contiguous substring. -/
def occursIn (t s : List Char) : Prop :=
  ∃ a b, s = a ++ t ++ b

/-! ## Data model

`SearchResult` is the JSON mapping the pipeline actually reads: an
optional `"organic"` array of entries with optional `title` / `link` /
`snippet` string fields, and an optional `"error"` key (present in the
body the provider returns, or inserted by `serper_search` on a non-200
status).  `HttpResponse` models the `requests` response object at the
three members the code touches (`status_code`, `text`, `.json()`); the
body is taken to be parseable JSON, as the code assumes. -/

/-- One entry of the `"organic"` array; `none` is an absent key. -/
structure SearchEntry where
  title : Option String
  link : Option String
  snippet : Option String
deriving DecidableEq, Repr

/-- The search response mapping at the keys the pipeline reads. -/
structure SearchResult where
  organic : Option (List SearchEntry)
  error : Option String
deriving DecidableEq, Repr

/-- A `requests` response: status code, raw body text, parsed body. -/
structure HttpResponse where
  status_code : Nat
  text : String
  json : SearchResult
deriving DecidableEq, Repr

/-! ## Search client (`serper_search`, travel_planner.py lines 23-30)

The network is an oracle `net` from the query string to the HTTP
response of the single POST the function performs. -/

/-- `serper_search`: the parsed JSON body on HTTP 200, otherwise the
mapping `{"error": resp.text}`. -/
def serper_search (net : String → HttpResponse) (query : String) : SearchResult :=
  let resp := net query
  if resp.status_code ≠ 200 then { organic := none, error := some resp.text }
  else resp.json

/-! ## Result summarizer (`summarize_search_results`, lines 33-42) -/

/-- The three-line block built for one organic entry, `"N/A"` standing
in for each absent field, ending with the `---` delimiter line. -/
def entryBlock (e : SearchEntry) : String :=
  "Title: " ++ e.title.getD "N/A" ++ "\nURL: " ++ e.link.getD "N/A" ++
    "\nSummary: " ++ e.snippet.getD "N/A" ++ "\n---"

/-- `summarize_search_results`: blocks for the first five organic
entries (an absent `"organic"` key defaults to the empty list), joined
with newlines. -/
def summarize_search_results (r : SearchResult) : String :=
  String.intercalate "\n" (((r.organic.getD []).take 5).map entryBlock)

/-! ## Itinerary generator (`build_itinerary`, lines 45-66)

`ChatPromptTemplate.from_template(...).format(...)` performs Python
`str.format` substitution on a fixed template.  `pyFormatGo` is that
scanner: outside a placeholder (`key = none`) characters are copied and
an opening brace starts a placeholder; inside one (`key = some acc`,
the key so far in reverse) a closing brace looks the key up and splices
the value, which is not rescanned.  An unterminated placeholder or an
unknown key is a Python exception, modelled as `none`. -/

/-- `{` (written by code so a brace never appears inside a string). -/
def braceOpen : Char := Char.ofNat 123

/-- `}` -/
def braceClose : Char := Char.ofNat 125

/-- Look a placeholder key up among the keyword arguments. -/
def lookupArg (args : List (String × String)) (k : String) : Option String :=
  (args.find? (fun q => q.1 == k)).map (fun q => q.2)

/-- The `str.format` scanner (see section comment). -/
def pyFormatGo (args : List (String × String)) (key : Option (List Char)) :
    List Char → Option (List Char)
  | [] => match key with | none => some [] | some _ => none
  | c :: rest =>
    match key with
    | none =>
      if c = braceOpen then pyFormatGo args (some []) rest
      else (pyFormatGo args none rest).map (fun t => c :: t)
    | some acc =>
      if c = braceClose then
        match lookupArg args ⟨acc.reverse⟩ with
        | none => none
        | some v => (pyFormatGo args none rest).map (fun t => v.data ++ t)
      else pyFormatGo args (some (c :: acc)) rest

/-- Python `template.format(**args)`. -/
def pyFormat (args : List (String × String)) (template : String) : Option String :=
  (pyFormatGo args none template.data).map (fun l => ⟨l⟩)

/-- The fixed prompt template of `build_itinerary` (braces written as
`\x7b`/`\x7d` escapes). -/
def prompt_template : String :=
  "You are an expert travel agent. Create a detailed day-by-day travel itinerary " ++
  "for a \x7bduration\x7d-day trip to \x7bdestination\x7d. " ++
  "The user has these preferences: \x7bpreferences\x7d\n\n" ++
  "Here is some information I found from my research:\n" ++
  "\x7bsearch_summary\x7d\n\n" ++
  "Please use this information to create the itinerary. For each day, suggest " ++
  "2-3 activities, a food recommendation, and some practical travel tips. " ++
  "Keep the tone friendly and helpful. Do not mention that you used a search engine."

/-- The literal text of the template before `\x7bduration\x7d`. -/
def seg0 : String :=
  "You are an expert travel agent. Create a detailed day-by-day travel itinerary for a "

/-- Literal text between `\x7bduration\x7d` and `\x7bdestination\x7d`. -/
def seg1 : String := "-day trip to "

/-- Literal text between `\x7bdestination\x7d` and `\x7bpreferences\x7d`. -/
def seg2 : String := ". The user has these preferences: "

/-- Literal text between `\x7bpreferences\x7d` and `\x7bsearch_summary\x7d`. -/
def seg3 : String := "\n\nHere is some information I found from my research:\n"

/-- The literal text of the template after `\x7bsearch_summary\x7d`. -/
def seg4 : String :=
  "\n\nPlease use this information to create the itinerary. For each day, suggest " ++
  "2-3 activities, a food recommendation, and some practical travel tips. " ++
  "Keep the tone friendly and helpful. Do not mention that you used a search engine."

/-- The keyword arguments `build_itinerary` passes to `format`
(`duration` is an `int`; `str.format` renders it in decimal). -/
def promptArgs (destination : String) (duration : Int)
    (preferences search_summary : String) : List (String × String) :=
  [("destination", destination), ("duration", toString duration),
   ("preferences", preferences), ("search_summary", search_summary)]

/-- The fully rendered prompt.  On this fixed template `format` always
succeeds; the default is never taken (`formatted_prompt_eq` below). -/
def formatted_prompt (destination : String) (duration : Int)
    (preferences search_summary : String) : String :=
  (pyFormat (promptArgs destination duration preferences search_summary)
    prompt_template).getD ""

/-- `build_itinerary`: one generation call on the rendered prompt, the
LLM being an oracle from the prompt to the completion text; the raw
completion is returned. -/
def build_itinerary (llm : String → String) (destination : String)
    (duration : Int) (preferences search_summary : String) : String :=
  llm (formatted_prompt destination duration preferences search_summary)

/-! ## The pipeline (`main`, travel_planner.py lines 68-109; the form
handler, app.py lines 86-118)

Both front ends run the same straight-line code: parse, search, halt on
an `"error"` key, summarize, halt on an empty summary, generate,
present.  `run` returns the external events emitted in order together
with the final user-visible outcome. -/

/-- The query string assembled at line 84 / line 96. -/
def mkQuery (place : String) (num_days : Int) (preferences : String) : String :=
  "best things to do in " ++ place ++ " for " ++ toString num_days ++
    " days " ++ preferences ++ " travel guide"

/-- The pipeline stages as externally visible events. -/
inductive Ev where
  | parseEv : Ev
  | searchEv (query : String) : Ev
  | sumEv : Ev
  | llmEv (prompt : String) : Ev
  | presentEv : Ev
deriving DecidableEq, Repr

/-- The final user-visible outcome of one request. -/
inductive Output where
  | invalidFormat : Output
  | searchError (raw : String) : Output
  | noInfo : Output
  | itinerary (place : String) (days : Int) (text : String) : Output
deriving DecidableEq, Repr

/-- The literal message each outcome prints (`print` in the console
front end, `st.error` / `st.warning` / `st.header` in the web one). -/
def renderOutput : Output → String
  | .invalidFormat =>
    "Invalid input format. Please follow the example: \x27Chennai, 3 days\x27."
  | .searchError raw => "Error during search: " ++ raw
  | .noInfo => "Could not find relevant information. Please try a different query."
  | .itinerary place days text =>
    "Here is your " ++ toString days ++ "-day itinerary for " ++ place ++ ":\n" ++ text

/-- One request through either front end: the emitted events and the
outcome. -/
def run (net : String → HttpResponse) (llm : String → String)
    (destination preferences : String) : List Ev × Output :=
  match parseDest destination with
  | none => ([.parseEv], .invalidFormat)
  | some (place, num_days) =>
    let query := mkQuery place num_days preferences
    let search_results := serper_search net query
    match search_results.error with
    | some e => ([.parseEv, .searchEv query], .searchError e)
    | none =>
      let search_summary := summarize_search_results search_results
      if search_summary = "" then ([.parseEv, .searchEv query, .sumEv], .noInfo)
      else
        let prompt := formatted_prompt place num_days preferences search_summary
        ([.parseEv, .searchEv query, .sumEv, .llmEv prompt, .presentEv],
          .itinerary place num_days (llm prompt))

/-! ## The web front end (`app.py` lines 27-71)

`app.py` repeats `serper_search`, `summarize_search_results` and
`build_itinerary` verbatim (its `serper_search` additionally carries
`@st.cache_data`, a memoization that leaves the function extensionally
unchanged); they are transcribed here separately so the equivalence is
a theorem about two definitions. -/

namespace App

/-- `app.py` lines 27-35. -/
def serper_search (net : String → HttpResponse) (query : String) : SearchResult :=
  let resp := net query
  if resp.status_code ≠ 200 then { organic := none, error := some resp.text }
  else resp.json

/-- `app.py` lines 43-46. -/
def entryBlock (e : SearchEntry) : String :=
  "Title: " ++ e.title.getD "N/A" ++ "\nURL: " ++ e.link.getD "N/A" ++
    "\nSummary: " ++ e.snippet.getD "N/A" ++ "\n---"

/-- `app.py` lines 38-47. -/
def summarize_search_results (r : SearchResult) : String :=
  String.intercalate "\n" (((r.organic.getD []).take 5).map entryBlock)

/-- `app.py` lines 50-71. -/
def build_itinerary (llm : String → String) (destination : String)
    (duration : Int) (preferences search_summary : String) : String :=
  llm (formatted_prompt destination duration preferences search_summary)

end App

/-! ## Character facts -/

/-- A decimal digit is not Python whitespace. -/
theorem isPyWs_eq_false_of_isDigit {c : Char} (h : c.isDigit = true) :
    isPyWs c = false := by
  by_contra h2
  simp only [Bool.not_eq_false, isPyWs, Bool.or_eq_true, decide_eq_true_eq] at h2
  rcases h2 with ((((h2 | h2) | h2) | h2) | h2) | h2 <;> subst h2 <;> simp [Char.isDigit] at h

/-- A whitespace character is not the comma separator. -/
theorem ne_comma_of_isPyWs {c : Char} (h : isPyWs c = true) : c ≠ ',' := by
  intro h2
  subst h2
  simp [isPyWs] at h

/-- A digit is not the comma separator. -/
theorem ne_comma_of_isDigit {c : Char} (h : c.isDigit = true) : c ≠ ',' := by
  intro h2
  subst h2
  simp [Char.isDigit] at h

/-! ## takeWhile / dropWhile helpers -/

/-- `takeWhile` runs through a prefix every element of which satisfies
the predicate. -/
theorem takeWhile_append_all {p : Char → Bool} {a : List Char}
    (h : ∀ c ∈ a, p c = true) (b : List Char) :
    (a ++ b).takeWhile p = a ++ b.takeWhile p := by
  induction a with
  | nil => simp
  | cons x a ih =>
    simp only [List.cons_append, List.takeWhile_cons, h x (by simp), if_true]
    rw [ih (fun c hc => h c (by simp [hc]))]

/-- `dropWhile` drops a prefix every element of which satisfies the
predicate. -/
theorem dropWhile_append_all {p : Char → Bool} {a : List Char}
    (h : ∀ c ∈ a, p c = true) (b : List Char) :
    (a ++ b).dropWhile p = b.dropWhile p := by
  induction a with
  | nil => simp
  | cons x a ih =>
    simp only [List.cons_append, List.dropWhile_cons, h x (by simp), if_true]
    exact ih (fun c hc => h c (by simp [hc]))

/-- `takeWhile` keeps the whole list when every element satisfies the
predicate. -/
theorem takeWhile_eq_self_of_all {p : Char → Bool} {l : List Char}
    (h : ∀ c ∈ l, p c = true) : l.takeWhile p = l := by
  induction l with
  | nil => simp
  | cons x l ih =>
    simp only [List.takeWhile_cons, h x (by simp), if_true]
    rw [ih (fun c hc => h c (by simp [hc]))]

/-- `dropWhile` empties a list every element of which satisfies the
predicate. -/
theorem dropWhile_eq_nil_of_all {p : Char → Bool} {l : List Char}
    (h : ∀ c ∈ l, p c = true) : l.dropWhile p = [] := by
  induction l with
  | nil => simp
  | cons x l ih =>
    simp only [List.dropWhile_cons, h x (by simp), if_true]
    exact ih (fun c hc => h c (by simp [hc]))

/-- `takeWhile` never reaches an appended tail that starts (or is
entirely made) of failing elements. -/
theorem takeWhile_append_none {p : Char → Bool} {b : List Char}
    (h : ∀ c ∈ b, p c = false) (a : List Char) :
    (a ++ b).takeWhile p = a.takeWhile p := by
  induction a with
  | nil =>
    cases b with
    | nil => simp
    | cons x b => simp [List.takeWhile_cons, h x (by simp)]
  | cons x a ih =>
    simp only [List.cons_append, List.takeWhile_cons]
    rw [ih]

/-- `dropWhile` never reaches an appended tail that starts (or is
entirely made) of failing elements. -/
theorem dropWhile_append_none {p : Char → Bool} {b : List Char}
    (h : ∀ c ∈ b, p c = false) (a : List Char) :
    (a ++ b).dropWhile p = a.dropWhile p ++ b := by
  induction a with
  | nil =>
    cases b with
    | nil => simp
    | cons x b => simp [List.dropWhile_cons, h x (by simp)]
  | cons x a ih =>
    simp only [List.cons_append, List.dropWhile_cons]
    by_cases hx : p x = true
    · simp only [hx, if_true]
      exact ih
    · have hx' : p x = false := by simpa using hx
      simp [hx']

/-- `takeWhile` stops inside `a` when some element of `a` fails, so an
appended tail is never reached. -/
theorem takeWhile_append_of_exists_false {p : Char → Bool} {a : List Char}
    (h : ∃ c ∈ a, p c = false) (b : List Char) :
    (a ++ b).takeWhile p = a.takeWhile p := by
  induction a with
  | nil => obtain ⟨c, hc, _⟩ := h; simp at hc
  | cons x a ih =>
    simp only [List.cons_append, List.takeWhile_cons]
    by_cases hx : p x = true
    · obtain ⟨c, hc, hcf⟩ := h
      rcases List.mem_cons.mp hc with rfl | hc
      · rw [hx] at hcf; cases hcf
      · simp only [hx, if_true]
        rw [ih ⟨c, hc, hcf⟩]
    · have hx' : p x = false := by simpa using hx
      simp [hx']

/-- `dropWhile` distributes over an append once it has stopped inside
the left part. -/
theorem dropWhile_append_of_ne_nil {p : Char → Bool} {a : List Char}
    {c : Char} {r : List Char} (h : a.dropWhile p = c :: r) (b : List Char) :
    (a ++ b).dropWhile p = c :: (r ++ b) := by
  induction a with
  | nil => simp at h
  | cons x a ih =>
    by_cases hx : p x = true
    · simp only [List.dropWhile_cons, hx, if_true] at h
      simp only [List.cons_append, List.dropWhile_cons, hx, if_true]
      exact ih h
    · have hx' : p x = false := by simpa using hx
      simp only [List.dropWhile_cons, hx'] at h
      simp only [List.cons_append, List.dropWhile_cons, hx']
      simp only [Bool.false_eq_true, if_false] at h ⊢
      rw [List.cons_eq_cons] at h
      obtain ⟨rfl, rfl⟩ := h
      simp

/-- The head a `dropWhile` stops at fails the predicate. -/
theorem dropWhile_head_false {p : Char → Bool} {l : List Char} {c : Char}
    {r : List Char} (h : l.dropWhile p = c :: r) : p c = false := by
  have h2 := List.head_dropWhile_not p l (by simp [h])
  simp only [h, List.head_cons, Bool.not_eq_true] at h2
  exact h2

/-- Inverting `takeWhile` at a cons: the list starts with that head. -/
theorem takeWhile_eq_cons_inv {p : Char → Bool} {l : List Char} {c : Char}
    {r : List Char} (h : l.takeWhile p = c :: r) :
    ∃ l', l = c :: l' ∧ p c = true := by
  cases l with
  | nil => simp at h
  | cons x l =>
    simp only [List.takeWhile_cons] at h
    by_cases hx : p x = true
    · simp only [hx, if_true, List.cons_eq_cons] at h
      exact ⟨l, by rw [h.1], h.1 ▸ hx⟩
    · have hx' : p x = false := by simpa using hx
      simp [hx'] at h

/-! ## splitP lemmas -/

/-- A split always has at least one (possibly empty) piece. -/
theorem splitP_ne_nil (p : Char → Bool) (l : List Char) : splitP p l ≠ [] := by
  cases l with
  | nil => simp [splitP]
  | cons c rest =>
    simp only [splitP]
    by_cases hc : p c = true
    · simp [hc]
    · have hc' : p c = false := by simpa using hc
      simp only [hc']
      cases h : splitP p rest <;> simp

/-- Master equation: the first piece of a split is the longest
separator-free prefix, and the rest restarts after the separator. -/
theorem splitP_eq (p : Char → Bool) (l : List Char) :
    splitP p l = l.takeWhile (fun c => !p c) ::
      (match l.dropWhile (fun c => !p c) with
       | [] => []
       | _ :: r => splitP p r) := by
  induction l with
  | nil => simp [splitP]
  | cons c rest ih =>
    by_cases hc : p c = true
    · simp [splitP, hc, List.takeWhile_cons, List.dropWhile_cons]
    · have hc' : p c = false := by simpa using hc
      simp only [splitP, hc', List.takeWhile_cons, List.dropWhile_cons, Bool.not_false,
        if_true, Bool.false_eq_true, if_false]
      rw [ih]

/-- Splitting after a leading separator. -/
theorem splitP_cons_true {p : Char → Bool} {c : Char} (hc : p c = true)
    (l : List Char) : splitP p (c :: l) = [] :: splitP p l := by
  simp [splitP, hc]

/-- A separator-free list is a single piece. -/
theorem splitP_no_sep {p : Char → Bool} {l : List Char}
    (h : ∀ c ∈ l, p c = false) : splitP p l = [l] := by
  induction l with
  | nil => simp [splitP]
  | cons c rest ih =>
    simp only [splitP, h c (by simp), Bool.false_eq_true, if_false]
    rw [ih (fun d hd => h d (by simp [hd]))]

/-- Splitting an append at an explicit separator with a separator-free
left part. -/
theorem splitP_append_sep {p : Char → Bool} {a : List Char}
    (ha : ∀ c ∈ a, p c = false) {s : Char} (hs : p s = true) (b : List Char) :
    splitP p (a ++ s :: b) = a :: splitP p b := by
  induction a with
  | nil => simp [splitP_cons_true hs]
  | cons c rest ih =>
    simp only [List.cons_append, splitP, ha c (by simp), Bool.false_eq_true, if_false,
      List.append_eq]
    rw [ih (fun d hd => ha d (by simp [hd]))]

/-- A list of separators splits into empty pieces only. -/
theorem splitP_all_true {p : Char → Bool} {l : List Char}
    (h : ∀ c ∈ l, p c = true) : splitP p l = List.replicate (l.length + 1) [] := by
  induction l with
  | nil => simp [splitP]
  | cons c rest ih =>
    rw [splitP_cons_true (h c (by simp)), ih (fun d hd => h d (by simp [hd]))]
    simp [List.replicate_succ]

/-- No piece of a split contains the separator. -/
theorem splitP_mem_no_sep {p : Char → Bool} : ∀ {l : List Char} {part : List Char},
    part ∈ splitP p l → ∀ c ∈ part, p c = false := by
  intro l
  induction l with
  | nil =>
    intro part hp c hc
    simp [splitP] at hp
    subst hp
    simp at hc
  | cons x rest ih =>
    intro part hp c hc
    by_cases hx : p x = true
    · rw [splitP_cons_true hx] at hp
      rcases List.mem_cons.mp hp with rfl | hp
      · simp at hc
      · exact ih hp c hc
    · have hx' : p x = false := by simpa using hx
      simp only [splitP, hx', Bool.false_eq_true, if_false] at hp
      rcases hq : splitP p rest with _ | ⟨q, qs⟩
      · exact absurd hq (splitP_ne_nil p rest)
      · rw [hq] at hp
        rcases List.mem_cons.mp hp with rfl | hp
        · rcases List.mem_cons.mp hc with rfl | hc
          · exact hx'
          · exact ih (hq ▸ List.mem_cons_self q qs) c hc
        · exact ih (hq ▸ List.mem_cons_of_mem q hp) c hc

/-- `joinSep` is a left inverse of splitting on that separator. -/
theorem joinSep_splitP (sep : Char) : ∀ l : List Char,
    joinSep sep (splitP (fun c => c = sep) l) = l := by
  intro l
  induction l with
  | nil => simp [splitP, joinSep]
  | cons c rest ih =>
    by_cases hc : c = sep
    · subst hc
      rw [splitP_cons_true (by simp)]
      rcases hq : splitP (fun d => decide (d = c)) rest with _ | ⟨q, qs⟩
      · exact absurd hq (splitP_ne_nil _ rest)
      · rw [hq] at ih
        simp only [joinSep, List.nil_append]
        rw [ih]
    · have hc' : (fun d => decide (d = sep)) c = false := by simpa using hc
      simp only [splitP, hc', Bool.false_eq_true, if_false]
      rcases hq : splitP (fun d => decide (d = sep)) rest with _ | ⟨q, qs⟩
      · exact absurd hq (splitP_ne_nil _ rest)
      · rw [hq] at ih
        cases qs with
        | nil => simp only [joinSep] at ih ⊢; rw [ih]
        | cons y ys => simp only [joinSep] at ih ⊢; rw [List.cons_append, ih]

/-! ## pyWsSplit lemmas -/

/-- Splitting the empty string yields no tokens. -/
theorem pyWsSplit_nil : pyWsSplitL [] = [] := by
  simp [pyWsSplitL, splitP]

/-- A leading whitespace character changes no token. -/
theorem pyWsSplit_cons_ws {c : Char} (hc : isPyWs c = true) (l : List Char) :
    pyWsSplitL (c :: l) = pyWsSplitL l := by
  simp [pyWsSplitL, splitP_cons_true hc]

/-- Leading whitespace changes no token. -/
theorem pyWsSplit_skipWs {w : List Char} (hw : ∀ c ∈ w, isPyWs c = true)
    (l : List Char) : pyWsSplitL (w ++ l) = pyWsSplitL l := by
  induction w with
  | nil => simp
  | cons c w ih =>
    rw [List.cons_append, pyWsSplit_cons_ws (hw c (by simp))]
    exact ih (fun d hd => hw d (by simp [hd]))

/-- Pure whitespace has no tokens. -/
theorem pyWsSplit_all_ws {w : List Char} (hw : ∀ c ∈ w, isPyWs c = true) :
    pyWsSplitL w = [] := by
  have h := pyWsSplit_skipWs hw []
  simpa using h

/-- A nonempty non-whitespace run followed by nothing or by whitespace
is the first token. -/
theorem pyWsSplit_token {t : List Char} (ht : t ≠ [])
    (ht2 : ∀ c ∈ t, isPyWs c = false) {X : List Char}
    (hX : X = [] ∨ ∃ d r, X = d :: r ∧ isPyWs d = true) :
    pyWsSplitL (t ++ X) = t :: pyWsSplitL X := by
  rcases hX with rfl | ⟨d, r, rfl, hd⟩
  · rw [List.append_nil, pyWsSplit_nil]
    unfold pyWsSplitL
    rw [splitP_no_sep ht2]
    cases t with
    | nil => exact absurd rfl ht
    | cons c t' => simp
  · unfold pyWsSplitL
    rw [splitP_append_sep ht2 hd r]
    have hne : (!t.isEmpty) = true := by
      cases t with
      | nil => exact absurd rfl ht
      | cons c t' => simp
    rw [List.filter_cons, hne, if_pos rfl]
    rw [← pyWsSplitL, ← pyWsSplitL, pyWsSplit_cons_ws hd]

/-- Skipping leading whitespace before splitting changes no token. -/
theorem pyWsSplit_dropWhile (l : List Char) :
    pyWsSplitL (l.dropWhile isPyWs) = pyWsSplitL l := by
  conv_rhs => rw [← List.takeWhile_append_dropWhile isPyWs l]
  rw [pyWsSplit_skipWs (fun c hc => List.mem_takeWhile_imp hc) _]

/-- The token decomposition at a non-whitespace head: the token is the
maximal non-whitespace run and splitting restarts after it. -/
theorem pyWsSplit_head_cons {m : List Char} {c : Char} {rest : List Char}
    (hd : m.dropWhile isPyWs = c :: rest) :
    pyWsSplitL m = (c :: rest.takeWhile (fun d => !isPyWs d)) ::
      pyWsSplitL (rest.dropWhile (fun d => !isPyWs d)) := by
  have hcf : isPyWs c = false := dropWhile_head_false hd
  have hm : pyWsSplitL m = pyWsSplitL (c :: rest) := by
    rw [← pyWsSplit_dropWhile m, hd]
  rw [hm]
  have hsplit : c :: rest =
      (c :: rest.takeWhile (fun d => !isPyWs d)) ++ rest.dropWhile (fun d => !isPyWs d) := by
    rw [List.cons_append, List.takeWhile_append_dropWhile]
  conv_lhs => rw [hsplit]
  apply pyWsSplit_token (by simp)
  · intro d hdm
    rcases List.mem_cons.mp hdm with rfl | hdm
    · exact hcf
    · have := List.mem_takeWhile_imp hdm
      simpa using this
  · rcases hX : rest.dropWhile (fun d => !isPyWs d) with _ | ⟨d, r⟩
    · exact Or.inl rfl
    · refine Or.inr ⟨d, r, rfl, ?_⟩
      have := dropWhile_head_false hX
      simpa using this

/-- Trailing whitespace changes no token. -/
theorem pyWsSplit_append_ws {w : List Char} (hw : ∀ c ∈ w, isPyWs c = true) :
    ∀ m : List Char, pyWsSplitL (m ++ w) = pyWsSplitL m := by
  have H : ∀ n (m : List Char), m.length ≤ n → pyWsSplitL (m ++ w) = pyWsSplitL m := by
    intro n
    induction n with
    | zero =>
      intro m hm
      have hm0 : m = [] := List.length_eq_zero.mp (Nat.le_zero.mp hm)
      subst hm0
      rw [List.nil_append, pyWsSplit_all_ws hw, pyWsSplit_nil]
    | succ n ih =>
      intro m hm
      rcases hd : m.dropWhile isPyWs with _ | ⟨c, rest⟩
      · have hmws : ∀ c ∈ m, isPyWs c = true := List.dropWhile_eq_nil_iff.mp hd
        rw [pyWsSplit_all_ws hmws, pyWsSplit_all_ws (fun d hdm => ?_)]
        rcases List.mem_append.mp hdm with h | h
        · exact hmws d h
        · exact hw d h
      · have hdw : (m ++ w).dropWhile isPyWs = c :: (rest ++ w) :=
          dropWhile_append_of_ne_nil hd w
        have h1 : (rest ++ w).takeWhile (fun d => !isPyWs d) =
            rest.takeWhile (fun d => !isPyWs d) :=
          takeWhile_append_none (fun d hdm => by simp [hw d hdm]) rest
        have h2 : (rest ++ w).dropWhile (fun d => !isPyWs d) =
            rest.dropWhile (fun d => !isPyWs d) ++ w :=
          dropWhile_append_none (fun d hdm => by simp [hw d hdm]) rest
        have hdw2 : (m ++ w).dropWhile isPyWs = c :: ((rest ++ w)) := hdw
        rw [pyWsSplit_head_cons hdw2, pyWsSplit_head_cons hd, h1, h2]
        have hlen : m.length = (m.takeWhile isPyWs).length + rest.length + 1 := by
          conv_lhs => rw [← List.takeWhile_append_dropWhile isPyWs m]
          rw [hd, List.length_append, List.length_cons]
          omega
        have hrec := ih (rest.dropWhile (fun d => !isPyWs d)) (by
          have hle : (rest.dropWhile (fun d => !isPyWs d)).length ≤ rest.length :=
            (List.dropWhile_sublist _).length_le
          omega)
        rw [hrec]
  exact fun m => H m.length m le_rfl

/-- A list is its right-stripped part plus trailing whitespace. -/
theorem rdropWs_decomp (l : List Char) :
    ∃ w, l = rdropWs l ++ w ∧ ∀ c ∈ w, isPyWs c = true := by
  refine ⟨(l.reverse.takeWhile isPyWs).reverse, ?_, ?_⟩
  · conv_lhs => rw [← List.reverse_reverse l]
    conv_lhs => rw [← List.takeWhile_append_dropWhile isPyWs l.reverse]
    rw [List.reverse_append]
    rfl
  · intro c hc
    exact List.mem_takeWhile_imp (List.mem_reverse.mp hc)

/-- Python `strip` changes no whitespace-split token. -/
theorem pyWsSplit_strip (l : List Char) :
    pyWsSplitL (pyStripL l) = pyWsSplitL l := by
  unfold pyStripL
  obtain ⟨w, hw, hwa⟩ := rdropWs_decomp (l.dropWhile isPyWs)
  calc pyWsSplitL (rdropWs (l.dropWhile isPyWs))
      = pyWsSplitL (rdropWs (l.dropWhile isPyWs) ++ w) :=
        (pyWsSplit_append_ws hwa _).symm
    _ = pyWsSplitL (l.dropWhile isPyWs) := by rw [← hw]
    _ = pyWsSplitL l := pyWsSplit_dropWhile l

/-! ## Integer-token lemmas -/

/-- Characters accepted inside the digit run: digits and underscores. -/
theorem pyDigitsCore_chars :
    ∀ (l : List Char) (acc n : Nat), pyDigitsCore acc l = some n →
      ∀ c ∈ l, c.isDigit = true ∨ c = '_' := by
  have H : ∀ (k : Nat) (l : List Char), l.length ≤ k → ∀ acc n : Nat,
      pyDigitsCore acc l = some n → ∀ c ∈ l, c.isDigit = true ∨ c = '_' := by
    intro k
    induction k with
    | zero =>
      intro l hl acc n h c hc
      have : l = [] := List.length_eq_zero.mp (Nat.le_zero.mp hl)
      subst this
      simp at hc
    | succ k ih =>
      intro l hl acc n h c hc
      cases l with
      | nil => simp at hc
      | cons x rest =>
        by_cases hx : x = '_'
        · subst hx
          cases rest with
          | nil => exact Option.noConfusion (show (none : Option Nat) = some n from h)
          | cons d rest2 =>
            simp only [pyDigitsCore, if_pos rfl] at h
            by_cases hd : d.isDigit = true
            · rw [if_pos hd] at h
              rcases List.mem_cons.mp hc with rfl | hc
              · exact Or.inr rfl
              · rcases List.mem_cons.mp hc with rfl | hc
                · exact Or.inl hd
                · exact ih rest2 (by simp at hl ⊢; omega) _ n h c hc
            · rw [if_neg hd] at h
              cases h
        · unfold pyDigitsCore at h
          rw [if_neg hx] at h
          by_cases hxd : x.isDigit = true
          · rw [if_pos hxd] at h
            rcases List.mem_cons.mp hc with rfl | hc
            · exact Or.inl hxd
            · exact ih rest (by simp at hl ⊢; omega) _ n h c hc
          · rw [if_neg hxd] at h
            cases h
  exact fun l => H l.length l le_rfl

/-- A successful digit parse starts with a digit. -/
theorem pyParseDigits_head {l : List Char} {m : Nat}
    (h : pyParseDigits l = some m) :
    ∃ d r, l = d :: r ∧ d.isDigit = true := by
  cases l with
  | nil => simp [pyParseDigits] at h
  | cons d r =>
    refine ⟨d, r, rfl, ?_⟩
    by_cases hd : d.isDigit = true
    · exact hd
    · simp [pyParseDigits, hd] at h

/-- The characters of a successful digit parse: digits and
underscores. -/
theorem pyParseDigits_chars {l : List Char} {m : Nat}
    (h : pyParseDigits l = some m) :
    ∀ c ∈ l, c.isDigit = true ∨ c = '_' := by
  cases l with
  | nil => exact fun c hc => absurd hc (by simp)
  | cons d r =>
    by_cases hd : d.isDigit = true
    · intro c hc
      rcases List.mem_cons.mp hc with rfl | hc
      · exact Or.inl hd
      · have h2 : pyDigitsCore (digitVal d) r = some m := by
          simpa [pyParseDigits, hd] using h
        exact pyDigitsCore_chars r _ _ h2 c hc
    · simp [pyParseDigits, hd] at h

/-- A successful integer parse contains no comma. -/
theorem pyParseIntL_no_comma {t : List Char} {n : Int}
    (h : pyParseIntL t = some n) : ∀ c ∈ t, c ≠ ',' := by
  intro c hc
  have hchar : c.isDigit = true ∨ c = '_' ∨ c = '+' ∨ c = '-' := by
    cases t with
    | nil => exact Option.noConfusion h
    | cons x rest =>
      simp only [pyParseIntL] at h
      by_cases hx : x = '+'
      · rw [if_pos hx] at h
        obtain ⟨m, hm, _⟩ := Option.map_eq_some'.mp h
        rcases List.mem_cons.mp hc with rfl | hc2
        · exact Or.inr (Or.inr (Or.inl hx))
        · rcases pyParseDigits_chars hm c hc2 with h1 | h1
          · exact Or.inl h1
          · exact Or.inr (Or.inl h1)
      · rw [if_neg hx] at h
        by_cases hx2 : x = '-'
        · rw [if_pos hx2] at h
          obtain ⟨m, hm, _⟩ := Option.map_eq_some'.mp h
          rcases List.mem_cons.mp hc with rfl | hc2
          · exact Or.inr (Or.inr (Or.inr hx2))
          · rcases pyParseDigits_chars hm c hc2 with h1 | h1
            · exact Or.inl h1
            · exact Or.inr (Or.inl h1)
        · rw [if_neg hx2] at h
          obtain ⟨m, hm, _⟩ := Option.map_eq_some'.mp h
          rcases pyParseDigits_chars hm c hc with h1 | h1
          · exact Or.inl h1
          · exact Or.inr (Or.inl h1)
  rcases hchar with h1 | h1 | h1 | h1
  · exact ne_comma_of_isDigit h1
  · subst h1; decide
  · subst h1; decide
  · subst h1; decide

/-- Shape of a successfully parsed token: a digit head, or a sign
immediately followed by a digit. -/
theorem pyParseIntL_shape {t : List Char} {n : Int}
    (h : pyParseIntL t = some n) :
    (∃ d r, t = d :: r ∧ d.isDigit = true) ∨
      (∃ x d r, t = x :: d :: r ∧ (x = '+' ∨ x = '-') ∧ d.isDigit = true) := by
  cases t with
  | nil => exact Option.noConfusion h
  | cons x rest =>
    simp only [pyParseIntL] at h
    by_cases hx : x = '+'
    · rw [if_pos hx] at h
      obtain ⟨m, hm, _⟩ := Option.map_eq_some'.mp h
      obtain ⟨d, r, rfl, hd⟩ := pyParseDigits_head hm
      exact Or.inr ⟨x, d, r, rfl, Or.inl hx, hd⟩
    · rw [if_neg hx] at h
      by_cases hx2 : x = '-'
      · rw [if_pos hx2] at h
        obtain ⟨m, hm, _⟩ := Option.map_eq_some'.mp h
        obtain ⟨d, r, rfl, hd⟩ := pyParseDigits_head hm
        exact Or.inr ⟨x, d, r, rfl, Or.inr hx2, hd⟩
      · rw [if_neg hx2] at h
        obtain ⟨m, hm, _⟩ := Option.map_eq_some'.mp h
        obtain ⟨d, r, hdr, hd⟩ := pyParseDigits_head hm
        refine Or.inl ⟨x, rest, rfl, ?_⟩
        obtain ⟨hd1, hd2⟩ := List.cons_eq_cons.mp hdr
        rw [hd1]
        exact hd

/-! ## afterComma lemmas -/

/-- `afterComma` finds an explicit first comma. -/
theorem afterComma_append {a : List Char} (ha : ∀ c ∈ a, c ≠ ',')
    (b : List Char) : afterComma (a ++ ',' :: b) = some b := by
  induction a with
  | nil => simp [afterComma]
  | cons x rest ih =>
    simp only [List.cons_append, afterComma]
    rw [if_neg (ha x (by simp))]
    exact ih (fun c hc => ha c (by simp [hc]))

/-! ## Parser evaluation lemmas -/

/-- The head piece of a split is the separator-free prefix. -/
theorem splitP_head_eq {p : Char → Bool} {l q : List Char} {qs : List (List Char)}
    (h : splitP p l = q :: qs) : q = l.takeWhile (fun c => !p c) := by
  rw [splitP_eq p l] at h
  exact (List.cons_eq_cons.mp h).1.symm

/-- Evaluating the parser once the split and the token list are known. -/
theorem parseDest_eval {s : String} {p0 p1 : List Char} {ps : List (List Char)}
    (hsp : splitP (fun c => c = ',') s.data = p0 :: p1 :: ps) {t : List Char}
    {ts : List (List Char)} (hws : pyWsSplitL (pyStripL p1) = t :: ts) :
    parseDest s = (pyParseIntL t).map (fun n => (⟨pyStripL p0⟩, n)) := by
  unfold parseDest
  rw [hsp]
  simp only [hws]

/-- The parser fails when the part between the first two commas holds
no token (the `[0]` raises IndexError). -/
theorem parseDest_eval_empty {s : String} {p0 p1 : List Char} {ps : List (List Char)}
    (hsp : splitP (fun c => c = ',') s.data = p0 :: p1 :: ps)
    (hws : pyWsSplitL (pyStripL p1) = []) :
    parseDest s = none := by
  unfold parseDest
  rw [hsp]
  simp only [hws]

/-- The parser fails when the input has no comma (the `[1]` raises
IndexError). -/
theorem parseDest_eval_nocomma {s : String} {p0 : List Char}
    (hsp : splitP (fun c => c = ',') s.data = [p0]) :
    parseDest s = none := by
  unfold parseDest
  rw [hsp]

/-- Positive parse: an input made of a comma-free place part, the first
comma, optional whitespace, a whitespace-free token the Python `int`
accepts, and a remainder that is empty or starts with whitespace,
parses to the stripped place part and the token's value. -/
theorem parse_pos {s : String} {A w t r : List Char} {n : Int}
    (hs : s.data = A ++ ',' :: (w ++ t ++ r))
    (hA : ∀ c ∈ A, c ≠ ',')
    (hw : ∀ c ∈ w, isPyWs c = true)
    (ht : t ≠ [])
    (ht2 : ∀ c ∈ t, isPyWs c = false)
    (hr : r = [] ∨ ∃ d r2, r = d :: r2 ∧ isPyWs d = true)
    (hn : pyParseIntL t = some n) :
    parseDest s = some (⟨pyStripL A⟩, n) := by
  have hA' : ∀ c ∈ A, (fun c => decide (c = ',')) c = false := fun c hc => by
    simp [hA c hc]
  have hsp : splitP (fun c => c = ',') s.data =
      A :: splitP (fun c => c = ',') (w ++ t ++ r) := by
    rw [hs]
    exact splitP_append_sep hA' (by simp) _
  rcases htl : splitP (fun c => decide (c = ',')) (w ++ t ++ r) with _ | ⟨q, qs⟩
  · exact absurd htl (splitP_ne_nil _ _)
  · rw [htl] at hsp
    have hq : q = (w ++ t ++ r).takeWhile (fun c => !(decide (c = ','))) :=
      splitP_head_eq htl
    have hw' : ∀ c ∈ w, (!(decide (c = ','))) = true := fun c hc => by
      simp [ne_comma_of_isPyWs (hw c hc)]
    have ht' : ∀ c ∈ t, (!(decide (c = ','))) = true := fun c hc => by
      simp [pyParseIntL_no_comma hn c hc]
    rw [List.append_assoc, takeWhile_append_all hw' (t ++ r),
      takeWhile_append_all ht' r] at hq
    have hr1shape : r.takeWhile (fun c => !(decide (c = ','))) = [] ∨
        ∃ d r2, r.takeWhile (fun c => !(decide (c = ','))) = d :: r2 ∧ isPyWs d = true := by
      rcases hr with rfl | ⟨d, r2, rfl, hd⟩
      · left; simp
      · right
        exact ⟨d, r2.takeWhile _, by
          rw [List.takeWhile_cons_of_pos (by simp [ne_comma_of_isPyWs hd])], hd⟩
    have hws : pyWsSplitL (pyStripL q) =
        t :: pyWsSplitL (r.takeWhile (fun c => !(decide (c = ',')))) := by
      rw [pyWsSplit_strip, hq, ← List.append_assoc, List.append_assoc w,
        pyWsSplit_skipWs hw, pyWsSplit_token ht ht2 hr1shape]
    rw [parseDest_eval hsp hws, hn]
    rfl

/-- Negative parse: with the same input shape, when the token truncated
at its first comma is not accepted by Python `int`, parsing fails. -/
theorem parse_neg {s : String} {A w t r : List Char}
    (hs : s.data = A ++ ',' :: (w ++ t ++ r))
    (hA : ∀ c ∈ A, c ≠ ',')
    (hw : ∀ c ∈ w, isPyWs c = true)
    (ht : t ≠ [])
    (ht2 : ∀ c ∈ t, isPyWs c = false)
    (hr : r = [] ∨ ∃ d r2, r = d :: r2 ∧ isPyWs d = true)
    (hn : pyParseIntL (t.takeWhile (fun c => !(decide (c = ',')))) = none) :
    parseDest s = none := by
  have hA' : ∀ c ∈ A, (fun c => decide (c = ',')) c = false := fun c hc => by
    simp [hA c hc]
  have hsp : splitP (fun c => c = ',') s.data =
      A :: splitP (fun c => c = ',') (w ++ t ++ r) := by
    rw [hs]
    exact splitP_append_sep hA' (by simp) _
  rcases htl : splitP (fun c => decide (c = ',')) (w ++ t ++ r) with _ | ⟨q, qs⟩
  · exact absurd htl (splitP_ne_nil _ _)
  · rw [htl] at hsp
    have hq : q = (w ++ t ++ r).takeWhile (fun c => !(decide (c = ','))) :=
      splitP_head_eq htl
    have hw' : ∀ c ∈ w, (!(decide (c = ','))) = true := fun c hc => by
      simp [ne_comma_of_isPyWs (hw c hc)]
    rw [List.append_assoc, takeWhile_append_all hw' (t ++ r)] at hq
    by_cases hcm : ∃ c ∈ t, c = ','
    · -- the token is cut at its internal comma
      obtain ⟨c0, hc0, hc0e⟩ := hcm
      have hcut : (t ++ r).takeWhile (fun c => !(decide (c = ','))) =
          t.takeWhile (fun c => !(decide (c = ','))) :=
        takeWhile_append_of_exists_false ⟨c0, hc0, by simp [hc0e]⟩ r
      rw [hcut] at hq
      have ht1ws : ∀ c ∈ t.takeWhile (fun c => !(decide (c = ','))), isPyWs c = false :=
        fun c hc => ht2 c ((List.takeWhile_sublist _).subset hc)
      rcases ht1 : t.takeWhile (fun c => !(decide (c = ','))) with _ | ⟨d, t1'⟩
      · have hws : pyWsSplitL (pyStripL q) = [] := by
          rw [pyWsSplit_strip, hq, ht1, List.append_nil, pyWsSplit_all_ws hw]
        exact parseDest_eval_empty hsp hws
      · have htok := @pyWsSplit_token (d :: t1') (by simp)
          (fun c hc => ht1ws c (ht1.symm ▸ hc)) [] (Or.inl rfl)
        rw [List.append_nil, pyWsSplit_nil] at htok
        have hws : pyWsSplitL (pyStripL q) = [d :: t1'] := by
          rw [pyWsSplit_strip, hq, ht1, pyWsSplit_skipWs hw, htok]
        rw [parseDest_eval hsp hws, ← ht1, hn]
        rfl
    · -- the token is comma-free and fails as a whole
      have ht' : ∀ c ∈ t, (!(decide (c = ','))) = true := fun c hc => by
        have : ¬ c = ',' := fun he => hcm ⟨c, hc, he⟩
        simp [this]
      have ht1 : t.takeWhile (fun c => !(decide (c = ','))) = t :=
        takeWhile_eq_self_of_all ht'
      rw [takeWhile_append_all ht' r] at hq
      have hr1shape : r.takeWhile (fun c => !(decide (c = ','))) = [] ∨
          ∃ d r2, r.takeWhile (fun c => !(decide (c = ','))) = d :: r2 ∧ isPyWs d = true := by
        rcases hr with rfl | ⟨d, r2, rfl, hd⟩
        · left; simp
        · right
          exact ⟨d, r2.takeWhile _, by
            rw [List.takeWhile_cons_of_pos (by simp [ne_comma_of_isPyWs hd])], hd⟩
      have hws : pyWsSplitL (pyStripL q) =
          t :: pyWsSplitL (r.takeWhile (fun c => !(decide (c = ',')))) := by
        rw [pyWsSplit_strip, hq, ← List.append_assoc, List.append_assoc w,
          pyWsSplit_skipWs hw, pyWsSplit_token ht ht2 hr1shape]
      rw [parseDest_eval hsp hws, ← ht1, hn]
      rfl

/-- A successful parse implies the input has a comma and the text after
the first comma begins (after whitespace) with an integer token. -/
theorem parse_success_leading {s : String} {pl : String} {n : Int}
    (h : parseDest s = some (pl, n)) :
    ∃ R, afterComma s.data = some R ∧ hasLeadingIntTok R = true := by
  rcases hsp : splitP (fun c => c = ',') s.data with _ | ⟨p0, rest0⟩
  · exact absurd hsp (splitP_ne_nil _ _)
  rcases rest0 with _ | ⟨p1, ps⟩
  · rw [parseDest_eval_nocomma hsp] at h
    cases h
  rcases hws : pyWsSplitL (pyStripL p1) with _ | ⟨t, ts⟩
  · rw [parseDest_eval_empty hsp hws] at h
    cases h
  rw [parseDest_eval hsp hws] at h
  obtain ⟨n2, hn, -⟩ := Option.map_eq_some'.mp h
  have hrec : s.data = p0 ++ ',' :: joinSep ',' (p1 :: ps) := by
    have hj := joinSep_splitP ',' s.data
    rw [hsp] at hj
    rw [← hj]
    simp only [joinSep]
  have hp0 : ∀ c ∈ p0, c ≠ ',' := by
    intro c hc he
    have := splitP_mem_no_sep (hsp ▸ List.mem_cons_self p0 (p1 :: ps)) c hc
    rw [he] at this
    simp at this
  have hac : afterComma s.data = some (joinSep ',' (p1 :: ps)) := by
    rw [hrec]
    exact afterComma_append hp0 _
  obtain ⟨X, hX⟩ : ∃ X, joinSep ',' (p1 :: ps) = p1 ++ X := by
    cases ps with
    | nil => exact ⟨[], by simp [joinSep]⟩
    | cons y ys => exact ⟨',' :: joinSep ',' (y :: ys), by simp [joinSep]⟩
  refine ⟨joinSep ',' (p1 :: ps), hac, ?_⟩
  rw [hX]
  have hws1 : pyWsSplitL p1 = t :: ts := by
    rw [← pyWsSplit_strip]
    exact hws
  rcases hd : p1.dropWhile isPyWs with _ | ⟨c, rest⟩
  · rw [← pyWsSplit_dropWhile p1, hd, pyWsSplit_nil] at hws1
    cases hws1
  have hhead := pyWsSplit_head_cons hd
  rw [hws1] at hhead
  obtain ⟨hthead, -⟩ := List.cons_eq_cons.mp hhead
  have hdw2 : (p1 ++ X).dropWhile isPyWs = c :: (rest ++ X) :=
    dropWhile_append_of_ne_nil hd X
  unfold hasLeadingIntTok
  simp only [hdw2]
  rcases pyParseIntL_shape hn with ⟨d, r, hdr, hdig⟩ | ⟨x, d, r, hdr, hsign, hdig⟩
  · rw [hthead] at hdr
    obtain ⟨hcd, -⟩ := List.cons_eq_cons.mp hdr
    rw [if_pos (hcd ▸ hdig)]
  · rw [hthead] at hdr
    obtain ⟨hcx, htw⟩ := List.cons_eq_cons.mp hdr
    obtain ⟨rest2, hrest2, -⟩ := takeWhile_eq_cons_inv htw
    have hsign2 : c = '+' ∨ c = '-' := by rw [hcx]; exact hsign
    have hcd : c.isDigit = false := by rcases hsign2 with rfl | rfl <;> decide
    rw [if_neg (by simp [hcd])]
    rw [if_pos (by rcases hsign2 with rfl | rfl <;> simp)]
    rw [hrest2, List.cons_append]
    exact hdig

/-! ## Prompt rendering lemmas -/

/-- The scanner copies one ordinary character. -/
theorem pyFormat_cons_lit {args : List (String × String)} {c : Char}
    (hc : c ≠ braceOpen) (rest : List Char) :
    pyFormatGo args none (c :: rest) =
      (pyFormatGo args none rest).map (fun t => c :: t) := by
  simp only [pyFormatGo]
  rw [if_neg hc]

/-- An opening brace puts the scanner into key mode. -/
theorem pyFormat_open (args : List (String × String)) (rest : List Char) :
    pyFormatGo args none (braceOpen :: rest) = pyFormatGo args (some []) rest := by
  simp only [pyFormatGo, if_true]

/-- Key mode accumulates one ordinary character. -/
theorem pyFormat_key_cons {args : List (String × String)} {c : Char}
    (hc : c ≠ braceClose) (acc rest : List Char) :
    pyFormatGo args (some acc) (c :: rest) =
      pyFormatGo args (some (c :: acc)) rest := by
  simp only [pyFormatGo]
  rw [if_neg hc]

/-- A closing brace looks the key up and splices the value, which is
not rescanned. -/
theorem pyFormat_key_close (args : List (String × String)) (acc rest : List Char) :
    pyFormatGo args (some acc) (braceClose :: rest) =
      match lookupArg args ⟨acc.reverse⟩ with
      | none => none
      | some v => (pyFormatGo args none rest).map (fun t => v.data ++ t) := by
  simp only [pyFormatGo, if_true]

/-- The scanner copies a brace-free literal prefix. -/
theorem pyFormat_lit {args : List (String × String)} {l1 : List Char}
    (h : ∀ c ∈ l1, c ≠ braceOpen) (l2 : List Char) :
    pyFormatGo args none (l1 ++ l2) =
      (pyFormatGo args none l2).map (fun t => l1 ++ t) := by
  induction l1 with
  | nil =>
    rw [List.nil_append]
    cases pyFormatGo args none l2 <;> simp
  | cons c rest ih =>
    rw [List.cons_append, pyFormat_cons_lit (h c (by simp)),
      ih (fun d hd => h d (by simp [hd]))]
    cases pyFormatGo args none l2 <;> simp

/-- Reading a whole placeholder key. -/
theorem pyFormat_key {args : List (String × String)} {key : List Char}
    (hk : ∀ c ∈ key, c ≠ braceClose) :
    ∀ (acc l2 : List Char),
      pyFormatGo args (some acc) (key ++ braceClose :: l2) =
        match lookupArg args ⟨acc.reverse ++ key⟩ with
        | none => none
        | some v => (pyFormatGo args none l2).map (fun t => v.data ++ t) := by
  induction key with
  | nil =>
    intro acc l2
    rw [List.nil_append, pyFormat_key_close]
    rw [show (⟨acc.reverse ++ []⟩ : String) = ⟨acc.reverse⟩ by simp]
  | cons k ks ih =>
    intro acc l2
    rw [List.cons_append, pyFormat_key_cons (hk k (by simp)),
      ih (fun d hd => hk d (by simp [hd])) (k :: acc) l2]
    rw [show (⟨(k :: acc).reverse ++ ks⟩ : String) = ⟨acc.reverse ++ k :: ks⟩ by simp]

set_option maxRecDepth 10000 in
/-- The fixed template is five brace-free literals around the four
placeholders, in the order duration, destination, preferences,
search_summary. -/
theorem prompt_template_decomp :
    prompt_template.data =
      seg0.data ++ braceOpen :: ("duration".data ++ braceClose ::
        (seg1.data ++ braceOpen :: ("destination".data ++ braceClose ::
          (seg2.data ++ braceOpen :: ("preferences".data ++ braceClose ::
            (seg3.data ++ braceOpen :: ("search_summary".data ++ braceClose ::
              seg4.data))))))) := by decide

set_option maxRecDepth 10000 in
/-- No literal segment of the template contains a brace. -/
theorem seg_no_braceOpen :
    (∀ c ∈ seg0.data, c ≠ braceOpen) ∧ (∀ c ∈ seg1.data, c ≠ braceOpen) ∧
    (∀ c ∈ seg2.data, c ≠ braceOpen) ∧ (∀ c ∈ seg3.data, c ≠ braceOpen) ∧
    (∀ c ∈ seg4.data, c ≠ braceOpen) := by
  refine ⟨by decide, by decide, by decide, by decide, by decide⟩

/-- The rendered prompt, at the level of character data: the literal
segments interleaved with the four values (the `duration` integer in
its decimal form). -/
theorem pyFormatGo_prompt (d : String) (du : Int) (p s : String) :
    pyFormatGo (promptArgs d du p s) none prompt_template.data =
      some (seg0.data ++ ((toString du).data ++ (seg1.data ++ (d.data ++
        (seg2.data ++ (p.data ++ (seg3.data ++ (s.data ++ seg4.data)))))))) := by
  obtain ⟨hs0, hs1, hs2, hs3, hs4⟩ := seg_no_braceOpen
  have lkdur : lookupArg (promptArgs d du p s) "duration" = some (toString du) := rfl
  have lkdest : lookupArg (promptArgs d du p s) "destination" = some d := rfl
  have lkpref : lookupArg (promptArgs d du p s) "preferences" = some p := rfl
  have lksum : lookupArg (promptArgs d du p s) "search_summary" = some s := rfl
  have h8 : pyFormatGo (promptArgs d du p s) none seg4.data = some seg4.data := by
    rw [← List.append_nil seg4.data, pyFormat_lit hs4 []]
    rfl
  have h7 : pyFormatGo (promptArgs d du p s) none
      (braceOpen :: ("search_summary".data ++ braceClose :: seg4.data)) =
      some (s.data ++ seg4.data) := by
    rw [pyFormat_open, pyFormat_key (by decide) [] _]
    have hmk : (⟨List.reverse [] ++ "search_summary".data⟩ : String) = "search_summary" := rfl
    simp only [hmk, lksum]
    rw [h8]
    rfl
  have h6 : pyFormatGo (promptArgs d du p s) none
      (seg3.data ++ braceOpen :: ("search_summary".data ++ braceClose :: seg4.data)) =
      some (seg3.data ++ (s.data ++ seg4.data)) := by
    rw [pyFormat_lit hs3, h7]
    rfl
  have h5 : pyFormatGo (promptArgs d du p s) none
      (braceOpen :: ("preferences".data ++ braceClose ::
        (seg3.data ++ braceOpen :: ("search_summary".data ++ braceClose :: seg4.data)))) =
      some (p.data ++ (seg3.data ++ (s.data ++ seg4.data))) := by
    rw [pyFormat_open, pyFormat_key (by decide) [] _]
    have hmk : (⟨List.reverse [] ++ "preferences".data⟩ : String) = "preferences" := rfl
    simp only [hmk, lkpref]
    rw [h6]
    rfl
  have h4 : pyFormatGo (promptArgs d du p s) none
      (seg2.data ++ braceOpen :: ("preferences".data ++ braceClose ::
        (seg3.data ++ braceOpen :: ("search_summary".data ++ braceClose :: seg4.data)))) =
      some (seg2.data ++ (p.data ++ (seg3.data ++ (s.data ++ seg4.data)))) := by
    rw [pyFormat_lit hs2, h5]
    rfl
  have h3 : pyFormatGo (promptArgs d du p s) none
      (braceOpen :: ("destination".data ++ braceClose ::
        (seg2.data ++ braceOpen :: ("preferences".data ++ braceClose ::
          (seg3.data ++ braceOpen :: ("search_summary".data ++ braceClose :: seg4.data)))))) =
      some (d.data ++ (seg2.data ++ (p.data ++ (seg3.data ++ (s.data ++ seg4.data))))) := by
    rw [pyFormat_open, pyFormat_key (by decide) [] _]
    have hmk : (⟨List.reverse [] ++ "destination".data⟩ : String) = "destination" := rfl
    simp only [hmk, lkdest]
    rw [h4]
    rfl
  have h2 : pyFormatGo (promptArgs d du p s) none
      (seg1.data ++ braceOpen :: ("destination".data ++ braceClose ::
        (seg2.data ++ braceOpen :: ("preferences".data ++ braceClose ::
          (seg3.data ++ braceOpen :: ("search_summary".data ++ braceClose :: seg4.data)))))) =
      some (seg1.data ++ (d.data ++ (seg2.data ++ (p.data ++ (seg3.data ++ (s.data ++ seg4.data)))))) := by
    rw [pyFormat_lit hs1, h3]
    rfl
  have h1 : pyFormatGo (promptArgs d du p s) none
      (braceOpen :: ("duration".data ++ braceClose ::
        (seg1.data ++ braceOpen :: ("destination".data ++ braceClose ::
          (seg2.data ++ braceOpen :: ("preferences".data ++ braceClose ::
            (seg3.data ++ braceOpen :: ("search_summary".data ++ braceClose :: seg4.data)))))))) =
      some ((toString du).data ++ (seg1.data ++ (d.data ++ (seg2.data ++
        (p.data ++ (seg3.data ++ (s.data ++ seg4.data))))))) := by
    rw [pyFormat_open, pyFormat_key (by decide) [] _]
    have hmk : (⟨List.reverse [] ++ "duration".data⟩ : String) = "duration" := rfl
    simp only [hmk, lkdur]
    rw [h2]
    rfl
  rw [prompt_template_decomp, pyFormat_lit hs0, h1]
  rfl

/-- The rendered prompt as a string equation. -/
theorem formatted_prompt_eq (d : String) (du : Int) (p s : String) :
    formatted_prompt d du p s =
      seg0 ++ toString du ++ seg1 ++ d ++ seg2 ++ p ++ seg3 ++ s ++ seg4 := by
  unfold formatted_prompt pyFormat
  rw [pyFormatGo_prompt]
  show (⟨seg0.data ++ ((toString du).data ++ (seg1.data ++ (d.data ++
    (seg2.data ++ (p.data ++ (seg3.data ++ (s.data ++ seg4.data)))))))⟩ : String) = _
  have hdata : (seg0 ++ toString du ++ seg1 ++ d ++ seg2 ++ p ++ seg3 ++ s ++ seg4).data =
      seg0.data ++ ((toString du).data ++ (seg1.data ++ (d.data ++
        (seg2.data ++ (p.data ++ (seg3.data ++ (s.data ++ seg4.data))))))) := by
    simp [String.data_append, List.append_assoc]
  rw [← hdata]

/-! ## occursIn lemmas -/

/-- Characters of a substring occurrence belong to the string. -/
theorem occursIn_subset {t s : List Char} (h : occursIn t s) : ∀ c ∈ t, c ∈ s := by
  obtain ⟨a, b, rfl⟩ := h
  intro c hc
  simp [hc]

/-! ## Pipeline evaluation lemmas -/

/-- A failed parse stops the run at the fixed invalid-format message
with no network event. -/
theorem run_eval_fail {net : String → HttpResponse} {llm : String → String}
    {dest prefs : String} (h : parseDest dest = none) :
    run net llm dest prefs = ([Ev.parseEv], Output.invalidFormat) := by
  unfold run
  simp only [h]

/-- An `"error"` key in the search result stops the run at the search
error, after the one search event. -/
theorem run_eval_error {net : String → HttpResponse} {llm : String → String}
    {dest prefs place : String} {n : Int} {e : String}
    (hp : parseDest dest = some (place, n))
    (he : (serper_search net (mkQuery place n prefs)).error = some e) :
    run net llm dest prefs =
      ([Ev.parseEv, Ev.searchEv (mkQuery place n prefs)], Output.searchError e) := by
  unfold run
  simp only [hp, he]

/-- An empty summary stops the run at the warning, before any LLM
event. -/
theorem run_eval_noinfo {net : String → HttpResponse} {llm : String → String}
    {dest prefs place : String} {n : Int}
    (hp : parseDest dest = some (place, n))
    (he : (serper_search net (mkQuery place n prefs)).error = none)
    (hs : summarize_search_results (serper_search net (mkQuery place n prefs)) = "") :
    run net llm dest prefs =
      ([Ev.parseEv, Ev.searchEv (mkQuery place n prefs), Ev.sumEv], Output.noInfo) := by
  unfold run
  simp only [hp, he, hs, if_true]

/-- The full pipeline: parse, search without error key, nonempty
summary, one generation call, presentation. -/
theorem run_eval_success {net : String → HttpResponse} {llm : String → String}
    {dest prefs place : String} {n : Int}
    (hp : parseDest dest = some (place, n))
    (he : (serper_search net (mkQuery place n prefs)).error = none)
    (hs : summarize_search_results (serper_search net (mkQuery place n prefs)) ≠ "") :
    run net llm dest prefs =
      ([Ev.parseEv, Ev.searchEv (mkQuery place n prefs), Ev.sumEv,
        Ev.llmEv (formatted_prompt place n prefs
          (summarize_search_results (serper_search net (mkQuery place n prefs)))),
        Ev.presentEv],
       Output.itinerary place n (llm (formatted_prompt place n prefs
         (summarize_search_results (serper_search net (mkQuery place n prefs)))))) := by
  unfold run
  simp only [hp, he]
  rw [if_neg hs]

/-! ## Claims -/

/-- C1 counterexample: `"Paris, 0 days"` is a valid `"X, N days"` input
(`"0"` is a decimal integer token), the parser accepts it with
days = 0, and 0 ≥ 1 fails — the claimed invariant days ≥ 1 does not
hold as stated. -/
theorem claim_C1_counterexample :
    parseDest "Paris, 0 days" = some ("Paris", 0) ∧ ¬ (1 ≤ (0 : Int)) := by
  exact ⟨by decide, by decide⟩

/-- C1 (amended): for every valid input of the form `"X, N days"`
(X comma-free, N a nonempty decimal digit token), the parser yields
place = X with surrounding whitespace trimmed and days = N; the code
does not enforce days ≥ 1, so days ≥ 1 holds exactly when N ≥ 1. -/
theorem claim_C1_parse_valid_format (X tok : String) (n : Int)
    (hX : ∀ c ∈ X.data, c ≠ ',')
    (h1 : tok.data ≠ [])
    (h2 : ∀ c ∈ tok.data, c.isDigit = true)
    (h3 : pyParseInt tok = some n) :
    parseDest (X ++ ", " ++ tok ++ " days") = some (pyStrip X, n) := by
  have hs : (X ++ ", " ++ tok ++ " days").data =
      X.data ++ ',' :: (" ".data ++ tok.data ++ " days".data) := by
    simp only [String.data_append]
    simp [List.append_assoc]
  exact parse_pos hs hX (by decide) h1
    (fun c hc => isPyWs_eq_false_of_isDigit (h2 c hc))
    (Or.inr ⟨' ', "days".data, rfl, by decide⟩) h3

/-- C1 witness: `"Ooty, 4 days"` parses to place `"Ooty"`, days 4. -/
theorem claim_C1_witness :
    parseDest ("Ooty" ++ ", " ++ "4" ++ " days") = some (pyStrip "Ooty", 4) :=
  claim_C1_parse_valid_format "Ooty" "4" 4 (by decide) (by decide) (by decide)
    (by decide)

/-- C2: an input without a comma, or whose text after the first comma
does not begin (after whitespace) with an integer token, fails the
parse; the run shows only the parse stage — no search and no LLM
event — and the fixed invalid-format message. -/
theorem claim_C2_invalid_input (net : String → HttpResponse)
    (llm : String → String) (dest prefs : String)
    (h : afterComma dest.data = none ∨
      ∃ T, afterComma dest.data = some T ∧ hasLeadingIntTok T = false) :
    parseDest dest = none ∧
    run net llm dest prefs = ([Ev.parseEv], Output.invalidFormat) ∧
    renderOutput Output.invalidFormat =
      "Invalid input format. Please follow the example: \x27Chennai, 3 days\x27." := by
  have hnone : parseDest dest = none := by
    rcases hpd : parseDest dest with _ | ⟨pl, n⟩
    · rfl
    · obtain ⟨R, hR, hL⟩ := parse_success_leading hpd
      rcases h with h1 | ⟨T, hT, hF⟩
      · rw [hR] at h1
        cases h1
      · rw [hR] at hT
        obtain rfl := Option.some_inj.mp hT
        rw [hL] at hF
        simp at hF
  exact ⟨hnone, run_eval_fail hnone, rfl⟩

/-- C2 witness: the spec scenario — `"Chennai"` has no comma, so the
run halts at the parse with no network event. -/
theorem claim_C2_witness :
    parseDest "Chennai" = none ∧
    run (fun _ => ⟨200, "", ⟨none, none⟩⟩) (fun _ => "") "Chennai" "history" =
      ([Ev.parseEv], Output.invalidFormat) ∧
    renderOutput Output.invalidFormat =
      "Invalid input format. Please follow the example: \x27Chennai, 3 days\x27." :=
  claim_C2_invalid_input _ _ "Chennai" "history" (Or.inl (by decide))

/-- C3: on a response whose organic list is present, the summary is
exactly the blocks of the first `min k 5` entries joined by newlines
(so exactly `k` blocks when `k < 5`, and exactly the first 5 when
`k ≥ 5`), and every block is the fixed three-line Title/URL/Summary
form with `"N/A"` for each missing field, ended by the delimiter. -/
theorem claim_C3_summarizer (entries : List SearchEntry) (err : Option String) :
    summarize_search_results ⟨some entries, err⟩ =
      String.intercalate "\n" ((entries.take 5).map entryBlock) ∧
    ((entries.take 5).map entryBlock).length = min entries.length 5 ∧
    ∀ e : SearchEntry, entryBlock e =
      "Title: " ++ e.title.getD "N/A" ++ "\nURL: " ++ e.link.getD "N/A" ++
        "\nSummary: " ++ e.snippet.getD "N/A" ++ "\n---" := by
  refine ⟨rfl, ?_, fun e => rfl⟩
  rw [List.length_map, List.length_take]
  omega

/-- C3 witness: two entries with missing fields yield exactly two
well-formed blocks. -/
theorem claim_C3_witness :
    summarize_search_results
      ⟨some [⟨some "T1", none, some "S1"⟩, ⟨none, some "L2", none⟩], none⟩ =
      "Title: T1\nURL: N/A\nSummary: S1\n---\nTitle: N/A\nURL: L2\nSummary: N/A\n---" := by
  rw [(claim_C3_summarizer [⟨some "T1", none, some "S1"⟩, ⟨none, some "L2", none⟩]
    none).1]
  rfl

/-- C4: a 200 response without an `"error"` key whose organic list is
empty or absent makes the summarizer return the empty string, and the
run halts at the recoverable warning after the summarize stage,
emitting no LLM event. -/
theorem claim_C4_empty_results (net : String → HttpResponse)
    (llm : String → String) (dest prefs place : String) (n : Int)
    (hp : parseDest dest = some (place, n))
    (h200 : (net (mkQuery place n prefs)).status_code = 200)
    (herr : (net (mkQuery place n prefs)).json.error = none)
    (horg : (net (mkQuery place n prefs)).json.organic = none ∨
      (net (mkQuery place n prefs)).json.organic = some []) :
    summarize_search_results (serper_search net (mkQuery place n prefs)) = "" ∧
    run net llm dest prefs =
      ([Ev.parseEv, Ev.searchEv (mkQuery place n prefs), Ev.sumEv],
        Output.noInfo) ∧
    renderOutput Output.noInfo =
      "Could not find relevant information. Please try a different query." := by
  have hser : serper_search net (mkQuery place n prefs) =
      (net (mkQuery place n prefs)).json := by
    simp only [serper_search]
    rw [if_neg (by simp [h200])]
  have hsum : summarize_search_results (serper_search net (mkQuery place n prefs)) = "" := by
    rw [hser]
    unfold summarize_search_results
    rcases horg with h | h <;> rw [h] <;> rfl
  refine ⟨hsum, run_eval_noinfo hp ?_ hsum, rfl⟩
  rw [hser]
  exact herr

/-- C4 witness: a 200 response with an empty organic list. -/
theorem claim_C4_witness :
    summarize_search_results (serper_search (fun _ => ⟨200, "", ⟨some [], none⟩⟩)
      (mkQuery "Ooty" 4 "history")) = "" ∧
    run (fun _ => ⟨200, "", ⟨some [], none⟩⟩) (fun _ => "") "Ooty, 4 days" "history" =
      ([Ev.parseEv, Ev.searchEv (mkQuery "Ooty" 4 "history"), Ev.sumEv],
        Output.noInfo) ∧
    renderOutput Output.noInfo =
      "Could not find relevant information. Please try a different query." :=
  claim_C4_empty_results _ _ "Ooty, 4 days" "history" "Ooty" 4 (by decide) rfl rfl
    (Or.inr rfl)

/-- C5 counterexample: when a substituted value itself contains a
placeholder token, the rendered prompt contains that literal token —
`format` does not rescan values, so the token survives verbatim.  The
claim "never contains the literal placeholder tokens", quantified over
every tuple, is false at this input. -/
theorem claim_C5_counterexample :
    occursIn ("\x7bduration\x7d" : String).data
      (formatted_prompt "Paris" 3 "\x7bduration\x7d" "info").data := by
  rw [formatted_prompt_eq]
  refine ⟨(seg0 ++ toString 3 ++ seg1 ++ "Paris" ++ seg2).data,
    (seg3 ++ "info" ++ seg4).data, ?_⟩
  simp only [String.data_append, List.append_assoc]
  rfl

/-- C5 (amended): the rendered prompt always contains each of the four
substituted values verbatim; and provided no substituted value string
contains an opening brace, the prompt contains none of the four literal
placeholder tokens. -/
theorem claim_C5_prompt_rendering (d : String) (du : Int) (p s : String)
    (hd : braceOpen ∉ d.data) (hdu : braceOpen ∉ (toString du).data)
    (hp : braceOpen ∉ p.data) (hs : braceOpen ∉ s.data) :
    occursIn d.data (formatted_prompt d du p s).data ∧
    occursIn (toString du).data (formatted_prompt d du p s).data ∧
    occursIn p.data (formatted_prompt d du p s).data ∧
    occursIn s.data (formatted_prompt d du p s).data ∧
    ¬ occursIn ("\x7bduration\x7d" : String).data (formatted_prompt d du p s).data ∧
    ¬ occursIn ("\x7bdestination\x7d" : String).data (formatted_prompt d du p s).data ∧
    ¬ occursIn ("\x7bpreferences\x7d" : String).data (formatted_prompt d du p s).data ∧
    ¬ occursIn ("\x7bsearch_summary\x7d" : String).data (formatted_prompt d du p s).data := by
  obtain ⟨hs0, hs1, hs2, hs3, hs4⟩ := seg_no_braceOpen
  have hdata : (formatted_prompt d du p s).data =
      seg0.data ++ ((toString du).data ++ (seg1.data ++ (d.data ++ (seg2.data ++
        (p.data ++ (seg3.data ++ (s.data ++ seg4.data))))))) := by
    rw [formatted_prompt_eq]
    simp [String.data_append, List.append_assoc]
  have hnb : braceOpen ∉ (formatted_prompt d du p s).data := by
    rw [hdata]
    intro hmem
    simp only [List.mem_append] at hmem
    rcases hmem with h | h | h | h | h | h | h | h | h
    · exact hs0 braceOpen h rfl
    · exact hdu h
    · exact hs1 braceOpen h rfl
    · exact hd h
    · exact hs2 braceOpen h rfl
    · exact hp h
    · exact hs3 braceOpen h rfl
    · exact hs h
    · exact hs4 braceOpen h rfl
  have hnotok : ∀ tok : String, braceOpen ∈ tok.data →
      ¬ occursIn tok.data (formatted_prompt d du p s).data := by
    intro tok hbr hocc
    exact hnb (occursIn_subset hocc braceOpen hbr)
  refine ⟨?_, ?_, ?_, ?_, hnotok _ (by decide), hnotok _ (by decide),
    hnotok _ (by decide), hnotok _ (by decide)⟩
  · exact ⟨seg0.data ++ (toString du).data ++ seg1.data,
      seg2.data ++ (p.data ++ (seg3.data ++ (s.data ++ seg4.data))),
      by rw [hdata]; simp [List.append_assoc]⟩
  · exact ⟨seg0.data,
      seg1.data ++ (d.data ++ (seg2.data ++ (p.data ++ (seg3.data ++ (s.data ++ seg4.data))))),
      by rw [hdata]; simp [List.append_assoc]⟩
  · exact ⟨seg0.data ++ (toString du).data ++ seg1.data ++ d.data ++ seg2.data,
      seg3.data ++ (s.data ++ seg4.data),
      by rw [hdata]; simp [List.append_assoc]⟩
  · exact ⟨seg0.data ++ (toString du).data ++ seg1.data ++ d.data ++ seg2.data ++
      p.data ++ seg3.data, seg4.data,
      by rw [hdata]; simp [List.append_assoc]⟩

/-- C5 witness: at a brace-free tuple the destination value occurs
verbatim and the duration placeholder token does not occur. -/
theorem claim_C5_witness :
    occursIn ("Ooty" : String).data (formatted_prompt "Ooty" 4 "solo" "info").data ∧
    ¬ occursIn ("\x7bduration\x7d" : String).data
      (formatted_prompt "Ooty" 4 "solo" "info").data := by
  have h := claim_C5_prompt_rendering "Ooty" 4 "solo" "info" (by decide) (by decide)
    (by decide) (by decide)
  exact ⟨h.1, h.2.2.2.2.1⟩

/-- C6: the search client yields the parsed JSON body on HTTP 200 and
the mapping `{"error": body-text}` on any other status; in the latter
case the run halts right after the search event with the search-error
outcome, whose rendered message carries the raw body text verbatim. -/
theorem claim_C6_search_client (net : String → HttpResponse)
    (llm : String → String) (dest prefs place : String) (n : Int)
    (hp : parseDest dest = some (place, n)) :
    ((net (mkQuery place n prefs)).status_code = 200 →
      serper_search net (mkQuery place n prefs) = (net (mkQuery place n prefs)).json) ∧
    ((net (mkQuery place n prefs)).status_code ≠ 200 →
      serper_search net (mkQuery place n prefs) =
        { organic := none, error := some (net (mkQuery place n prefs)).text } ∧
      run net llm dest prefs =
        ([Ev.parseEv, Ev.searchEv (mkQuery place n prefs)],
          Output.searchError (net (mkQuery place n prefs)).text) ∧
      occursIn (net (mkQuery place n prefs)).text.data
        (renderOutput (Output.searchError (net (mkQuery place n prefs)).text)).data) := by
  constructor
  · intro h200
    simp only [serper_search]
    rw [if_neg (by simp [h200])]
  · intro hne
    have hser : serper_search net (mkQuery place n prefs) =
        { organic := none, error := some (net (mkQuery place n prefs)).text } := by
      simp only [serper_search]
      rw [if_pos hne]
    refine ⟨hser, run_eval_error hp (by rw [hser]), ?_⟩
    refine ⟨("Error during search: " : String).data, [], ?_⟩
    simp [renderOutput, String.data_append]

/-- C6 witness: a 403 with body `"denied"` is surfaced verbatim and the
run halts after the search. -/
theorem claim_C6_witness :
    run (fun _ => ⟨403, "denied", ⟨none, none⟩⟩) (fun _ => "") "Ooty, 4 days" "fun" =
      ([Ev.parseEv, Ev.searchEv (mkQuery "Ooty" 4 "fun")],
        Output.searchError "denied") := by
  have h := claim_C6_search_client (fun _ => ⟨403, "denied", ⟨none, none⟩⟩)
    (fun _ => "") "Ooty, 4 days" "fun" "Ooty" 4 (by decide)
  exact (h.2 (by decide)).2.1

/-- C7: the web front end repeats the console pipeline functions
verbatim, so `serper_search`, `summarize_search_results` and
`build_itinerary` are extensionally (indeed definitionally) equal
between the two files. -/
theorem claim_C7_front_ends_agree :
    App.serper_search = serper_search ∧
    App.summarize_search_results = summarize_search_results ∧
    App.build_itinerary = build_itinerary :=
  ⟨rfl, rfl, rfl⟩

set_option maxRecDepth 10000 in
/-- C8: in every run, each pipeline stage event occurs at most once;
any LLM event implies the parse succeeded, the search result carried no
error key, and the summary was nonempty, with the strictly linear trace
parse–search–summarize–generate–present; and an itinerary outcome only
arises from that same full trace, so no partial itinerary follows a
failure. -/
theorem claim_C8_pipeline_order (net : String → HttpResponse)
    (llm : String → String) (dest prefs : String) :
    ((run net llm dest prefs).1.countP
        (fun e => match e with | Ev.parseEv => true | _ => false) ≤ 1 ∧
      (run net llm dest prefs).1.countP
        (fun e => match e with | Ev.searchEv _ => true | _ => false) ≤ 1 ∧
      (run net llm dest prefs).1.countP
        (fun e => match e with | Ev.sumEv => true | _ => false) ≤ 1 ∧
      (run net llm dest prefs).1.countP
        (fun e => match e with | Ev.llmEv _ => true | _ => false) ≤ 1 ∧
      (run net llm dest prefs).1.countP
        (fun e => match e with | Ev.presentEv => true | _ => false) ≤ 1) ∧
    (∀ pr, Ev.llmEv pr ∈ (run net llm dest prefs).1 →
      ∃ place n, parseDest dest = some (place, n) ∧
        (serper_search net (mkQuery place n prefs)).error = none ∧
        summarize_search_results (serper_search net (mkQuery place n prefs)) ≠ "" ∧
        (run net llm dest prefs).1 =
          [Ev.parseEv, Ev.searchEv (mkQuery place n prefs), Ev.sumEv,
            Ev.llmEv pr, Ev.presentEv]) ∧
    (∀ place n text, (run net llm dest prefs).2 = Output.itinerary place n text →
      (run net llm dest prefs).1 =
        [Ev.parseEv, Ev.searchEv (mkQuery place n prefs), Ev.sumEv,
          Ev.llmEv (formatted_prompt place n prefs
            (summarize_search_results (serper_search net (mkQuery place n prefs)))),
          Ev.presentEv]) := by
  rcases hpd : parseDest dest with _ | ⟨place0, n0⟩
  · rw [run_eval_fail hpd]
    refine ⟨⟨by simp, by simp, by simp, by simp, by simp⟩, ?_, ?_⟩
    · intro pr hmem
      simp at hmem
    · intro place n text hout
      simp at hout
  · rcases herr : (serper_search net (mkQuery place0 n0 prefs)).error with _ | ⟨e⟩
    · by_cases hsum :
        summarize_search_results (serper_search net (mkQuery place0 n0 prefs)) = ""
      · rw [run_eval_noinfo hpd herr hsum]
        refine ⟨⟨by simp, by simp, by simp, by simp, by simp⟩, ?_, ?_⟩
        · intro pr hmem
          simp at hmem
        · intro place n text hout
          simp at hout
      · rw [run_eval_success hpd herr hsum]
        refine ⟨⟨by simp, by simp, by simp, by simp, by simp⟩, ?_, ?_⟩
        · intro pr hmem
          simp only [List.mem_cons, List.mem_singleton] at hmem
          rcases hmem with h | h | h | h | h
          · cases h
          · cases h
          · cases h
          · injection h with h2
            subst h2
            exact ⟨place0, n0, rfl, herr, hsum, rfl⟩
          · simp at h
        · intro place n text hout
          simp only at hout
          injection hout with h1 h2 h3
          rw [← h1, ← h2]
    · rw [run_eval_error hpd herr]
      refine ⟨⟨by simp, by simp, by simp, by simp, by simp⟩, ?_, ?_⟩
      · intro pr hmem
        simp at hmem
      · intro place n text hout
        simp at hout

/-- C8 witness: a full successful run at a concrete input has each
stage exactly once. -/
theorem claim_C8_witness :
    (run (fun _ => ⟨200, "", ⟨some [⟨some "T", some "L", some "S"⟩], none⟩⟩)
        (fun _ => "plan") "Ooty, 4 days" "fun").1.countP
      (fun e => match e with | Ev.llmEv _ => true | _ => false) ≤ 1 :=
  (claim_C8_pipeline_order (fun _ => ⟨200, "", ⟨some [⟨some "T", some "L", some "S"⟩], none⟩⟩)
    (fun _ => "plan") "Ooty, 4 days" "fun").1.2.2.2.1

/-- C9 counterexample: in `"Paris, 3,4 days"` the first
whitespace-separated token after the first comma is `"3,4"`, which does
not parse as an integer, so the claim as stated requires
InputFormatError; the code instead accepts the input with days = 3,
because `split(',')` also cuts the token at its second comma. -/
theorem claim_C9_counterexample :
    afterComma ("Paris, 3,4 days").data = some (" 3,4 days" : String).data ∧
    pyWsSplitL (" 3,4 days" : String).data =
      [("3,4" : String).data, ("days" : String).data] ∧
    pyParseIntL ("3,4" : String).data = none ∧
    parseDest "Paris, 3,4 days" = some ("Paris", 3) := by
  exact ⟨by decide, by decide, by decide, by decide⟩

/-- C9 (amended): for an input whose text after the first comma is
optional whitespace, a whitespace-free token `t`, and a remainder that
is empty or starts with whitespace: if Python `int` accepts `t`,
parsing succeeds with that value regardless of what follows; and if
`int` rejects `t` truncated at the first comma inside it, parsing
fails.  (`"Paris, 3"` and `"Paris, 3 weeks"` are accepted, `"Paris,
3days"` is rejected; `"Paris, 3,4 days"` is accepted with days 3 since
the comma also cuts the token.) -/
theorem claim_C9_parse_tokens (A w t r : String)
    (hA : ∀ c ∈ A.data, c ≠ ',')
    (hw : ∀ c ∈ w.data, isPyWs c = true)
    (ht : t.data ≠ [])
    (ht2 : ∀ c ∈ t.data, isPyWs c = false)
    (hr : r.data = [] ∨ ∃ d r2, r.data = d :: r2 ∧ isPyWs d = true) :
    (∀ n : Int, pyParseInt t = some n →
      parseDest (A ++ "," ++ w ++ t ++ r) = some (pyStrip A, n)) ∧
    (pyParseIntL (t.data.takeWhile (fun c => !(decide (c = ',')))) = none →
      parseDest (A ++ "," ++ w ++ t ++ r) = none) := by
  have hs : (A ++ "," ++ w ++ t ++ r).data =
      A.data ++ ',' :: (w.data ++ t.data ++ r.data) := by
    simp only [String.data_append]
    simp [List.append_assoc]
  exact ⟨fun n hn => parse_pos hs hA hw ht ht2 hr hn,
    fun hf => parse_neg hs hA hw ht ht2 hr hf⟩

/-- C9 witness: `"Paris, 3 weeks"` is accepted with days 3 despite the
missing word "days"; `"Paris, 3days"` is rejected. -/
theorem claim_C9_witness :
    parseDest ("Paris" ++ "," ++ " " ++ "3" ++ " weeks") = some (pyStrip "Paris", 3) ∧
    parseDest ("Paris" ++ "," ++ " " ++ "3days" ++ "") = none :=
  ⟨(claim_C9_parse_tokens "Paris" " " "3" " weeks" (by decide) (by decide)
      (by decide) (by decide) (Or.inr ⟨' ', ("weeks" : String).data, rfl, by decide⟩)).1
      3 (by decide),
   (claim_C9_parse_tokens "Paris" " " "3days" "" (by decide) (by decide)
      (by decide) (by decide) (Or.inl rfl)).2 (by decide)⟩

/-- C10: a 200 response whose JSON body itself carries an `"error"` key
halts the run with the search-error outcome after the search event, and
no LLM event occurs: the error branch is decided by the key's presence
in the returned mapping, not by the HTTP status. -/
theorem claim_C10_error_key_on_200 (net : String → HttpResponse)
    (llm : String → String) (dest prefs place : String) (n : Int) (e : String)
    (hp : parseDest dest = some (place, n))
    (h200 : (net (mkQuery place n prefs)).status_code = 200)
    (herr : (net (mkQuery place n prefs)).json.error = some e) :
    serper_search net (mkQuery place n prefs) = (net (mkQuery place n prefs)).json ∧
    run net llm dest prefs =
      ([Ev.parseEv, Ev.searchEv (mkQuery place n prefs)], Output.searchError e) ∧
    ∀ pr, Ev.llmEv pr ∉ (run net llm dest prefs).1 := by
  have hser : serper_search net (mkQuery place n prefs) =
      (net (mkQuery place n prefs)).json := by
    simp only [serper_search]
    rw [if_neg (by simp [h200])]
  have hrun := @run_eval_error net llm dest prefs place n e hp
    (by rw [hser]; exact herr)
  refine ⟨hser, hrun, ?_⟩
  intro pr hmem
  rw [hrun] at hmem
  simp at hmem

/-- C10 witness: a 200 response whose body is `{"error": "quota"}`. -/
theorem claim_C10_witness :
    run (fun _ => ⟨200, "", ⟨none, some "quota"⟩⟩) (fun _ => "") "Ooty, 4 days" "fun" =
      ([Ev.parseEv, Ev.searchEv (mkQuery "Ooty" 4 "fun")], Output.searchError "quota") :=
  (claim_C10_error_key_on_200 (fun _ => ⟨200, "", ⟨none, some "quota"⟩⟩) (fun _ => "")
    "Ooty, 4 days" "fun" "Ooty" 4 "quota" (by decide) rfl rfl).2.1
